import Mathlib

/-!
Verification of the grid frequency-regulation simulation
(`content/Frequency regulation setup.py`).

Shallow embedding conventions:
* Python floats are modelled as exact rationals (`ℚ`); the claims under
  scrutiny are stated in exact arithmetic.
* numpy's float constant `pi` is modelled as an arbitrary rational
  parameter `pi`; none of the verified claims depends on its value.
* The external ODE integrator `scipy.integrate.solve_ivp` is a black box
  (per the design spec); it is modelled as an arbitrary function argument
  `solver` receiving the right-hand side and the call record `IvpCall`
  (time span, initial state, method string, max step, rtol) and returning
  a time grid and a state trajectory (`IvpSol`).
* A Python state tuple/array row is a `List ℚ`; indexing `x[i]` becomes
  `x.getD i 0` (the simulation only ever indexes in bounds, so the
  default is never relevant on real runs).
-/

namespace FreqReg

/-- Base frequency `f0 = 50` Hz (source line 14). -/
def f0 : ℚ := 50

/-- Nominal angular frequency `Ω0 = 2*pi*f0` (source line 15), with
numpy's float `pi` as a rational parameter. -/
def Ω0 (pi : ℚ) : ℚ := 2 * pi * f0

/-- Simulation initial time `t_ini = -1` s (source line 18). -/
def t_ini : ℚ := -1

/-- Simulation final time `t_fin = 10` s (source line 19). -/
def t_fin : ℚ := 10

/-- Generator base power `Sg = 1` "so that ΔP is in pu" (source line 40). -/
def Sg : ℚ := 1

/-- Droop gain of `sim_freq_response` (source lines 43-47):
`K = Sg/(f0*s)` when FCR is enabled, else `K = 0.0`. -/
def sim_K (s : ℚ) (fcr : Bool) : ℚ :=
  if fcr then Sg / (f0 * s) else 0

/-- Steady-state frequency floor of `sim_freq_response` (source lines
43-48): `f_lim = f0 - ΔP_load/K` when FCR is enabled, else `f_lim = 0`
("0 Hz = blackout"). -/
def sim_f_lim (ΔP_load s : ℚ) (fcr : Bool) : ℚ :=
  if fcr then f0 - ΔP_load / sim_K s fcr else 0

/-- Load term of the power balance in `fder` (source lines 64-66):
`P_load = 0; if t>=0 and t<T_ΔP: P_load = ΔP_load`. -/
def P_load_term (ΔP_load T_ΔP t : ℚ) : ℚ :=
  if 0 ≤ t ∧ t < T_ΔP then ΔP_load else 0

/-- ODE right-hand side `fder(t, x)` (source lines 50-78).  The closure
parameters of the Python inner function (`K`, `T_fcr`, `ΔP_load`, `T_ΔP`,
`J`, `fcr_lag`, and the float constant `pi`) are explicit arguments.
Returns the derivative vector `(f_dot,)` or `(f_dot, P_fcr_dot)`. -/
def fder (pi K T_fcr ΔP_load T_ΔP J : ℚ) (fcr_lag : Bool)
    (t : ℚ) (x : List ℚ) : List ℚ :=
  let f := x.getD 0 0
  let Δf := f - f0
  let Ω := 2 * pi * f
  let P_fcr := if fcr_lag then x.getD 1 0 else -K * Δf
  let P_load := P_load_term ΔP_load T_ΔP t
  let ΔP := -P_load + P_fcr
  let Ω_dot := ΔP / (J * Ω)
  let f_dot := Ω_dot / (2 * pi)
  if fcr_lag then [f_dot, (-K * Δf - P_fcr) / T_fcr] else [f_dot]

/-- Call record handed to the black-box integrator: time span, initial
state, method name, `max_step`, `rtol` (the arguments of the `solve_ivp`
call at source lines 89-90). -/
structure IvpCall where
  t0 : ℚ
  t1 : ℚ
  x0 : List ℚ
  method : String
  max_step : ℚ
  rtol : ℚ

/-- Integrator output: time grid `t` and state trajectory `y`
(`y.getD 0 []` is the frequency row, `y.getD 1 []` the regulation-power
row when present), mirroring `sol.t` / `sol.y`. -/
structure IvpSol where
  t : List ℚ
  y : List (List ℚ)

/-- Type of the black-box integrator capability. -/
abbrev Solver := (ℚ → List ℚ → List ℚ) → IvpCall → IvpSol

/-- Initial state of `sim_freq_response` (source lines 80-86):
`(f_ini,)` or `(f_ini, P_fcr_ini)` with `f_ini = 50` and
`P_fcr_ini = 0`. -/
def sim_x_ini (fcr_lag : Bool) : List ℚ :=
  if fcr_lag then [(50 : ℚ), 0] else [(50 : ℚ)]

/-- The integrator call issued by `sim_freq_response` (source lines
89-90): span `(t_ini, t_fin)`, initial state `sim_x_ini`,
`method='BDF'` (scipy's implicit stiff-capable multistep method),
`max_step=(t_fin-t_ini)/100`, `rtol=1e-4`. -/
def sim_ivp_call (fcr_lag : Bool) : IvpCall :=
  ⟨t_ini, t_fin, sim_x_ini fcr_lag, "BDF", (t_fin - t_ini) / 100, 1 / 10000⟩

/-- Result record of one simulation run, the tuple
`(sol.t, f, P_fcr, f_lim)` returned at source line 97. -/
structure SimResult where
  t : List ℚ
  f : List ℚ
  P_fcr : List ℚ
  f_lim : ℚ

/-- `sim_freq_response(ΔP_load, T_ΔP, H, s, T_fcr, fcr, fcr_lag)`
(source lines 22-97), parametric in the black-box `solver` and in `pi`.
Computes `J`, the gain `K` and floor `f_lim`, integrates `fder` from the
initial state over `(t_ini, t_fin)`, and unpacks the trajectory:
frequency is row 0; regulation power is row 1 when the lag state was
integrated, else it is recomputed algebraically as `-K*(f - f0)`
(source lines 92-96). -/
def sim_freq_response (solver : Solver) (pi ΔP_load T_ΔP H s T_fcr : ℚ)
    (fcr fcr_lag : Bool) : SimResult :=
  let J := 2 * H * Sg / (Ω0 pi) ^ 2
  let K := sim_K s fcr
  let f_lim := sim_f_lim ΔP_load s fcr
  let sol := solver (fder pi K T_fcr ΔP_load T_ΔP J fcr_lag) (sim_ivp_call fcr_lag)
  let f := sol.y.getD 0 []
  let P_fcr := if fcr_lag then sol.y.getD 1 [] else f.map (fun fi => -K * (fi - f0))
  ⟨sol.t, f, P_fcr, f_lim⟩

/-- Index of the first occurrence of the minimum of a list: the semantics
of `np.argmin` (source line 104).  `np.argmin` raises on an empty input;
the value `0` at `[]` is an arbitrary totalisation never relied upon. -/
def argmin : List ℚ → ℕ
  | [] => 0
  | [_] => 0
  | x :: y :: xs =>
    let r := argmin (y :: xs)
    if (y :: xs).getD r 0 < x then r + 1 else 0

/-- `find_nadir(f)` (source lines 100-113): take `i_min = np.argmin(f)`;
it is a nadir iff `i_min < len(f)-1 and i_min > 0 and
f[i_min] <= f[-1] - 0.001`; otherwise `(None, None)`. -/
def find_nadir (f : List ℚ) : Option (ℕ × ℚ) :=
  let i_min := argmin f
  if i_min < f.length - 1 ∧ 0 < i_min ∧
      f.getD i_min 0 ≤ f.getD (f.length - 1) 0 - 1 / 1000 then
    some (i_min, f.getD i_min 0)
  else
    none

/-- Value of the variable `T_ΔP` inside `freq_response_interact` after
the option-resolution step: either a number (seconds) or still the
original string. -/
inductive TΔPValue where
  | num (q : ℚ)
  | str (s : String)

/-- Option-resolution step of `freq_response_interact` (source lines
216-221).  `Except.error` models a raised exception.  `'permanent'` maps
to `t_fin` and `'4 s'` to `4`; in the remaining branch the source
evaluates the expression `ValueError("T_ΔP should be 'permanent' or
'4 s'")`, which constructs the exception object and discards it — there
is no `raise` — so no branch raises and control falls through to the
simulation call (line 225) with `T_ΔP` still bound to the invalid
string. -/
def interact_resolve_TΔP (o : String) : Except String TΔPValue :=
  if o = "permanent" then .ok (.num t_fin)
  else if o = "4 s" then .ok (.num 4)
  else .ok (.str o)

/-! ## Helper lemmas about `argmin` and `find_nadir` -/

/-- `getD` commutes with `map` at in-bounds indices. -/
theorem getD_map_lt (g : ℚ → ℚ) : ∀ (l : List ℚ) (i : ℕ), i < l.length →
    (l.map g).getD i 0 = g (l.getD i 0)
  | a :: l, 0, _ => by simp
  | a :: l, i + 1, h => by simpa using getD_map_lt g l i (by simpa using h)
  | [], i, h => by simp at h

/-- On a non-empty list, `argmin` is an in-bounds index. -/
theorem argmin_lt_length : ∀ (f : List ℚ), f ≠ [] → argmin f < f.length
  | [_], _ => by simp [argmin]
  | x :: y :: xs, _ => by
    have ih := argmin_lt_length (y :: xs) (by simp)
    simp only [argmin]
    split
    · simp only [List.length_cons] at ih ⊢
      omega
    · simp

/-- The value at `argmin` is a global minimum of the list. -/
theorem argmin_le_getD : ∀ (f : List ℚ) (j : ℕ), j < f.length →
    f.getD (argmin f) 0 ≤ f.getD j 0
  | [x], j, hj => by
    have hj0 : j = 0 := by simpa using hj
    subst hj0
    simp [argmin]
  | x :: y :: xs, j, hj => by
    simp only [argmin]
    split
    case isTrue h =>
      rcases j with _ | k
      · simpa using le_of_lt h
      · have hk : k < (y :: xs).length := by
          simpa [Nat.succ_lt_succ_iff] using hj
        simpa using argmin_le_getD (y :: xs) k hk
    case isFalse h =>
      rcases j with _ | k
      · simp
      · have hk : k < (y :: xs).length := by
          simpa [Nat.succ_lt_succ_iff] using hj
        have h1 : x ≤ (y :: xs).getD (argmin (y :: xs)) 0 := le_of_not_lt h
        have h2 := argmin_le_getD (y :: xs) k hk
        simpa using le_trans h1 h2

/-- `argmin` is the FIRST index attaining the minimum: every strictly
earlier entry is strictly larger. -/
theorem argmin_first : ∀ (f : List ℚ) (j : ℕ), j < argmin f →
    f.getD (argmin f) 0 < f.getD j 0
  | [], j, hj => by simp [argmin] at hj
  | [x], j, hj => by simp [argmin] at hj
  | x :: y :: xs, j, hj => by
    simp only [argmin] at hj ⊢
    split
    case isTrue h =>
      rw [if_pos h] at hj
      rcases j with _ | k
      · simpa using h
      · have hk : k < argmin (y :: xs) := by omega
        simpa using argmin_first (y :: xs) k hk
    case isFalse h =>
      rw [if_neg h] at hj
      omega

/-- There is at most one index that attains the global minimum and is
preceded only by strictly larger entries. -/
theorem min_first_unique {f : List ℚ} {i k : ℕ}
    (hi : i < f.length) (hk : k < f.length)
    (hmin : ∀ j, j < f.length → f.getD i 0 ≤ f.getD j 0)
    (hfst : ∀ j, j < i → f.getD i 0 < f.getD j 0)
    (hmin' : ∀ j, j < f.length → f.getD k 0 ≤ f.getD j 0)
    (hfst' : ∀ j, j < k → f.getD k 0 < f.getD j 0) : i = k := by
  rcases lt_trichotomy i k with h | h | h
  · exact absurd (hfst' i h) (not_lt.mpr (hmin k hk))
  · exact h
  · exact absurd (hfst k h) (not_lt.mpr (hmin' i hi))

/-- Full characterisation of a successful `find_nadir` outcome: the
returned index is the first index attaining the global minimum, it is
interior, and the minimum sits at least `0.001` below the last sample. -/
theorem find_nadir_some_iff (f : List ℚ) (i : ℕ) (v : ℚ) :
    find_nadir f = some (i, v) ↔
      (i < f.length ∧ v = f.getD i 0 ∧
       (∀ j, j < f.length → v ≤ f.getD j 0) ∧
       (∀ j, j < i → v < f.getD j 0) ∧
       0 < i ∧ i < f.length - 1 ∧
       v ≤ f.getD (f.length - 1) 0 - 1 / 1000) := by
  constructor
  · intro h
    simp only [find_nadir] at h
    split at h
    case isTrue hc =>
      obtain ⟨hc1, hc2, hc3⟩ := hc
      simp only [Option.some.injEq, Prod.mk.injEq] at h
      obtain ⟨hi2, hv2⟩ := h
      subst hi2
      subst hv2
      have hlen : argmin f < f.length := by omega
      exact ⟨hlen, rfl, fun j hj => argmin_le_getD f j hj,
        fun j hj => argmin_first f j hj, hc2, hc1, hc3⟩
    case isFalse => exact absurd h (by simp)
  · rintro ⟨hi, hv, hmin, hfst, hpos, hint, hthr⟩
    have hne : f ≠ [] := by
      intro h0
      rw [h0] at hi
      simp at hi
    have heq : argmin f = i :=
      min_first_unique (argmin_lt_length f hne) hi
        (fun j hj => argmin_le_getD f j hj) (fun j hj => argmin_first f j hj)
        (hv ▸ hmin) (hv ▸ hfst)
    simp only [find_nadir, heq]
    rw [if_pos ⟨hint, hpos, hv ▸ hthr⟩]
    rw [hv]

/-- Adjacent-wise non-increasing extends to all index pairs. -/
theorem nonincr_getD {f : List ℚ}
    (h : ∀ j, j + 1 < f.length → f.getD (j + 1) 0 ≤ f.getD j 0) :
    ∀ a b, a ≤ b → b < f.length → f.getD b 0 ≤ f.getD a 0 := by
  intro a b
  induction b with
  | zero =>
    intro hab _
    have : a = 0 := Nat.le_zero.mp hab
    subst this
    exact le_refl _
  | succ n ih =>
    intro hab hb
    rcases Nat.eq_or_lt_of_le hab with h1 | h1
    · subst h1
      exact le_refl _
    · have hn : a ≤ n := by omega
      exact le_trans (h n hb) (ih hn (by omega))

/-- Adjacent-wise non-decreasing puts the head below every entry. -/
theorem nondecr_getD {f : List ℚ}
    (h : ∀ j, j + 1 < f.length → f.getD j 0 ≤ f.getD (j + 1) 0) :
    ∀ b, b < f.length → f.getD 0 0 ≤ f.getD b 0 := by
  intro b
  induction b with
  | zero => intro _; exact le_refl _
  | succ n ih =>
    intro hb
    exact le_trans (ih (by omega)) (h n hb)

/-- A monotonically non-increasing trajectory has no nadir: its minimum
equals the final sample, so the `0.001`-recovery test fails. -/
theorem find_nadir_nonincr {f : List ℚ} (hne : f ≠ [])
    (h : ∀ j, j + 1 < f.length → f.getD (j + 1) 0 ≤ f.getD j 0) :
    find_nadir f = none := by
  have hlt := argmin_lt_length f hne
  have h1 : f.getD (argmin f) 0 ≤ f.getD (f.length - 1) 0 :=
    argmin_le_getD f (f.length - 1) (by omega)
  have h2 : f.getD (f.length - 1) 0 ≤ f.getD (argmin f) 0 :=
    nonincr_getD h (argmin f) (f.length - 1) (by omega) (by omega)
  simp only [find_nadir]
  rw [if_neg]
  rintro ⟨-, -, hc3⟩
  linarith

/-- A monotonically non-decreasing trajectory has no nadir: its first
minimum index is `0`, which the interior test rejects. -/
theorem find_nadir_nondecr {f : List ℚ} (hne : f ≠ [])
    (h : ∀ j, j + 1 < f.length → f.getD j 0 ≤ f.getD (j + 1) 0) :
    find_nadir f = none := by
  have hlt := argmin_lt_length f hne
  have hz : argmin f = 0 := by
    by_contra hnz
    have h1 : f.getD (argmin f) 0 < f.getD 0 0 :=
      argmin_first f 0 (by omega)
    have h2 : f.getD 0 0 ≤ f.getD (argmin f) 0 := nondecr_getD h (argmin f) hlt
    linarith
  simp only [find_nadir, hz]
  rw [if_neg]
  rintro ⟨-, hc2, -⟩
  omega

/-! ## Claim theorems -/

/-- Claim C1: for every parameter set, `sim_freq_response` computes the
droop gain and steady-state floor as follows.  If regulation is disabled,
`K = 0` and the returned floor `f_lim = 0`.  If regulation is enabled,
`K = Sg/(f0*s) = 1/(50*s)` and the returned floor is
`f0 - ΔP_load/K = 50 - ΔP_load/K`.  The floor is the fourth component of
the returned tuple, for any black-box solver. -/
theorem sim_gain_floor_spec (solver : Solver) (pi ΔP_load T_ΔP H s T_fcr : ℚ)
    (fcr_lag : Bool) :
    sim_K s false = 0 ∧
    (sim_freq_response solver pi ΔP_load T_ΔP H s T_fcr false fcr_lag).f_lim = 0 ∧
    sim_K s true = 1 / (50 * s) ∧
    (sim_freq_response solver pi ΔP_load T_ΔP H s T_fcr true fcr_lag).f_lim
      = 50 - ΔP_load / sim_K s true := by
  refine ⟨by simp [sim_K], ?_, by simp [sim_K, Sg, f0], ?_⟩ <;>
    simp [sim_freq_response, sim_f_lim, sim_K, Sg, f0]

/-- Claim C2: `find_nadir` reports `some (i, v)` exactly when `i` is the
first index attaining the global minimum of the sequence, `i` is neither
the first nor the last sample, and the minimum `v` is at most
`f[last] - 0.001`, i.e. it sits at least `0.001` below the final sample
(the reading of the spec's "at most 0.001 below the final sample's value"
consistent with its nadir test and with the code); in every other case it
reports no nadir. -/
theorem find_nadir_min_index_rule (f : List ℚ) (hne : f ≠ []) (i : ℕ) (v : ℚ) :
    find_nadir f = some (i, v) ↔
      (i < f.length ∧ v = f.getD i 0 ∧
       (∀ j, j < f.length → v ≤ f.getD j 0) ∧
       (∀ j, j < i → v < f.getD j 0) ∧
       0 < i ∧ i < f.length - 1 ∧
       v ≤ f.getD (f.length - 1) 0 - 1 / 1000) :=
  find_nadir_some_iff f i v

/-- Witness for C2 at the concrete dip `[50, 49, 50]`. -/
theorem find_nadir_min_index_rule_witness :
    find_nadir [(50 : ℚ), 49, 50] = some (1, 49) := by
  refine (find_nadir_min_index_rule [(50 : ℚ), 49, 50] (by simp) 1 49).mpr
    ⟨by norm_num, by norm_num, ?_, ?_, by norm_num, by norm_num, by norm_num⟩
  · intro j hj
    simp only [List.length_cons, List.length_nil] at hj
    interval_cases j <;> norm_num
  · intro j hj
    have hj0 : j = 0 := by omega
    subst hj0
    norm_num

/-- Claim C3: (a) for every frequency sequence whose global minimum is
attained at an interior index, strictly below the first sample, and whose
final sample is at least `0.001` above that minimum, `find_nadir` returns
the minimum's (first) index and value; (b) for every non-empty
monotonically non-increasing sequence, and (c) for every non-empty
monotonically non-decreasing sequence, `find_nadir` returns no nadir. -/
theorem find_nadir_dip_and_monotone (f : List ℚ) :
    (∀ i, 0 < i → i < f.length - 1 →
      (∀ j, j < f.length → f.getD i 0 ≤ f.getD j 0) →
      f.getD i 0 < f.getD 0 0 →
      f.getD i 0 + 1 / 1000 ≤ f.getD (f.length - 1) 0 →
      find_nadir f = some (argmin f, f.getD i 0) ∧
        0 < argmin f ∧ argmin f < f.length - 1 ∧
        f.getD (argmin f) 0 = f.getD i 0) ∧
    (f ≠ [] → (∀ j, j + 1 < f.length → f.getD (j + 1) 0 ≤ f.getD j 0) →
      find_nadir f = none) ∧
    (f ≠ [] → (∀ j, j + 1 < f.length → f.getD j 0 ≤ f.getD (j + 1) 0) →
      find_nadir f = none) := by
  refine ⟨?_, fun hne h => find_nadir_nonincr hne h,
    fun hne h => find_nadir_nondecr hne h⟩
  intro i hpos hint hmin hfirst hrecov
  have hne : f ≠ [] := by
    have : 0 < f.length := by omega
    exact List.length_pos.mp this
  have hlt := argmin_lt_length f hne
  have h1 : f.getD (argmin f) 0 ≤ f.getD i 0 := argmin_le_getD f i (by omega)
  have h2 : f.getD i 0 ≤ f.getD (argmin f) 0 := hmin (argmin f) hlt
  have heq : f.getD (argmin f) 0 = f.getD i 0 := le_antisymm h1 h2
  have hk0 : 0 < argmin f := by
    by_contra hk
    have hz : argmin f = 0 := by omega
    rw [hz] at heq
    linarith
  have hklast : argmin f < f.length - 1 := by
    by_contra hk
    have hz : argmin f = f.length - 1 := by omega
    rw [hz] at heq
    linarith
  refine ⟨?_, hk0, hklast, heq⟩
  simp only [find_nadir]
  rw [if_pos ⟨hklast, hk0, by rw [heq]; linarith⟩, heq]

/-- Witness for C3 at the non-increasing sequence `[3, 2, 1]`. -/
theorem find_nadir_dip_and_monotone_witness :
    find_nadir [(3 : ℚ), 2, 1] = none := by
  refine (find_nadir_dip_and_monotone [(3 : ℚ), 2, 1]).2.1 (by simp) ?_
  intro j hj
  simp only [List.length_cons, List.length_nil] at hj
  have hj01 : j = 0 ∨ j = 1 := by omega
  rcases hj01 with h | h <;> subst h <;> norm_num

/-- Claim C4, counterexample: at `ΔP_load = 0.1`, `H = 1`, `s = 0.10`,
`fcr = true`, `fcr_lag = false`, the returned floor is NOT `49.95` Hz
(the claim's own formula `50 - 0.1/(1/(50*0.10))` evaluates to `49.5`,
not `50 - 0.05 = 49.95`). -/
theorem sim_floor_scenario_B_counterexample :
    (sim_freq_response (fun _ _ => ⟨[], []⟩) 0 (1/10) 10 1 (1/10) 1 true false).f_lim
      ≠ 49.95 := by
  norm_num [sim_freq_response, sim_f_lim, sim_K, Sg, f0]

/-- Claim C4, as amended: for the parameter set `ΔP_load = 0.1`, `H = 1`,
`s = 0.10`, `fcr = true`, `fcr_lag = false` (and `T_ΔP = 10`, the
"permanent" window), the returned steady-state floor equals
`50 - 0.1/(1/(50*0.10)) = 50 - 0.5 = 49.5` Hz, in exact rational
arithmetic on the gain formula. -/
theorem sim_floor_scenario_B :
    (sim_freq_response (fun _ _ => ⟨[], []⟩) 0 (1/10) 10 1 (1/10) 1 true false).f_lim
      = 99 / 2 ∧
    (99 / 2 : ℚ) = 50 - (1/10) / (1 / (50 * (1/10))) ∧
    (99 / 2 : ℚ) = 49.5 := by
  refine ⟨?_, by norm_num, by norm_num⟩
  norm_num [sim_freq_response, sim_f_lim, sim_K, Sg, f0]

/-- Claim C5 (code bug): resolving a load-step-duration option other than
`'permanent'` or `'4 s'` does NOT raise: the source builds
`ValueError(...)` without `raise` (line 221), so the resolution step
returns normally — `Except.ok` with the invalid string still bound to
`T_ΔP` — and the run proceeds into the simulation call instead of being
rejected beforehand. -/
theorem interact_invalid_duration_proceeds :
    interact_resolve_TΔP "5 s" = .ok (.str "5 s") := rfl

/-- Claim C6: for every time `t`, the load term used in the power balance
of `fder` equals `ΔP_load` exactly when `0 ≤ t < T_ΔP`, and equals `0`
for every other `t`, including all `t < 0`. -/
theorem fder_load_step_window (ΔP_load T_ΔP t : ℚ) :
    ((0 ≤ t ∧ t < T_ΔP) → P_load_term ΔP_load T_ΔP t = ΔP_load) ∧
    (¬(0 ≤ t ∧ t < T_ΔP) → P_load_term ΔP_load T_ΔP t = 0) ∧
    (t < 0 → P_load_term ΔP_load T_ΔP t = 0) := by
  refine ⟨fun h => by simp [P_load_term, h],
    fun h => by simp only [P_load_term, if_neg h],
    fun h => ?_⟩
  simp only [P_load_term]
  rw [if_neg]
  rintro ⟨h0, -⟩
  linarith

/-- Witness for C6: inside the window the term is the load step, before
`t = 0` it vanishes. -/
theorem fder_load_step_window_witness :
    P_load_term (1/10) 4 2 = 1/10 ∧ P_load_term (1/10) 4 (-1) = 0 :=
  ⟨(fder_load_step_window (1/10) 4 2).1 (by norm_num),
   (fder_load_step_window (1/10) 4 (-1)).2.2 (by norm_num)⟩

/-- Claim C7: with regulation enabled and lag disabled, the returned
regulation-power sequence satisfies
`P_fcr[i] = -K * (f[i] - 50)` exactly at every sample index, for any
black-box solver output, because the droop law is reapplied algebraically
to the frequency trajectory after integration. -/
theorem regulation_power_droop_law (solver : Solver)
    (pi ΔP_load T_ΔP H s T_fcr : ℚ) :
    ((sim_freq_response solver pi ΔP_load T_ΔP H s T_fcr true false).P_fcr).length
      = ((sim_freq_response solver pi ΔP_load T_ΔP H s T_fcr true false).f).length ∧
    ∀ i, i < ((sim_freq_response solver pi ΔP_load T_ΔP H s T_fcr true false).f).length →
      ((sim_freq_response solver pi ΔP_load T_ΔP H s T_fcr true false).P_fcr).getD i 0
        = -(sim_K s true)
            * (((sim_freq_response solver pi ΔP_load T_ΔP H s T_fcr true false).f).getD i 0 - 50) := by
  constructor
  · simp [sim_freq_response]
  · intro i hi
    simp only [sim_freq_response] at hi ⊢
    rw [if_neg (by simp : ¬false = true), getD_map_lt _ _ i (by simpa using hi)]
    simp [f0]

/-- Witness for C7 at a two-sample trajectory returned by a concrete
solver. -/
theorem regulation_power_droop_law_witness :
    ((sim_freq_response (fun _ _ => ⟨[0, 1], [[50, 49]]⟩) 0 (1/10) 10 1 (1/10) 1
        true false).P_fcr).getD 1 0
      = -(sim_K (1/10) true)
          * (((sim_freq_response (fun _ _ => ⟨[0, 1], [[50, 49]]⟩) 0 (1/10) 10 1 (1/10) 1
                true false).f).getD 1 0 - 50) :=
  (regulation_power_droop_law (fun _ _ => ⟨[0, 1], [[50, 49]]⟩) 0 (1/10) 10 1 (1/10) 1).2
    1 (by simp [sim_freq_response])

/-- Claim C8: with regulation disabled (`fcr = false`), the run returns a
steady-state floor of `0`, and the regulation-power output is identically
zero: in the no-lag branch the returned sequence is pointwise `0`
(it is `-K*(f - f0)` with `K = 0`) for any solver output; in the lag
branch the filtered power state starts at `0` and its `fder`-derivative is
`0` whenever the state is `0`, so the exact lag dynamics keep it at zero. -/
theorem no_regulation_zero_output (solver : Solver)
    (pi ΔP_load T_ΔP H s T_fcr J : ℚ) (fcr_lag : Bool) :
    (sim_freq_response solver pi ΔP_load T_ΔP H s T_fcr false fcr_lag).f_lim = 0 ∧
    (∀ p ∈ (sim_freq_response solver pi ΔP_load T_ΔP H s T_fcr false false).P_fcr, p = 0) ∧
    (sim_x_ini true).getD 1 0 = 0 ∧
    (∀ t x, x.getD 1 0 = 0 →
      (fder pi (sim_K s false) T_fcr ΔP_load T_ΔP J true t x).getD 1 0 = 0) := by
  refine ⟨?_, ?_, by simp [sim_x_ini], ?_⟩
  · simp [sim_freq_response, sim_f_lim]
  · intro p hp
    simp only [sim_freq_response, sim_K] at hp
    rw [if_neg (by simp : ¬false = true)] at hp
    simp only [List.mem_map] at hp
    obtain ⟨fi, -, hfi⟩ := hp
    simp at hfi
    exact hfi.symm
  · intro t x hx
    simp only [List.getD_eq_getElem?_getD] at hx
    simp [fder, sim_K, hx]

/-- Witness for C8: the lag-state derivative vanishes on a concrete state
with zero regulation power. -/
theorem no_regulation_zero_output_witness :
    (fder 0 (sim_K (1/10) false) 1 (1/10) 10 1 true 1 [49, 0]).getD 1 0 = 0 :=
  (no_regulation_zero_output (fun _ _ => ⟨[], []⟩) 0 (1/10) 10 1 (1/10) 1 1 true).2.2.2
    1 [49, 0] (by simp)

/-- Claim C9: the simulator's integrator call uses initial state `(50)`
(length 1) without lag and `(50, 0)` (length 2) with lag, the fixed
window from `-1` s to `10` s, the implicit stiff-capable method `'BDF'`,
maximum step `(t_fin - t_ini)/100 = 0.11`, and relative tolerance
`1e-4`. -/
theorem sim_integrator_call_spec (fcr_lag : Bool) :
    (sim_ivp_call fcr_lag).t0 = -1 ∧
    (sim_ivp_call fcr_lag).t1 = 10 ∧
    (sim_ivp_call fcr_lag).x0 = (if fcr_lag then [(50 : ℚ), 0] else [(50 : ℚ)]) ∧
    (sim_ivp_call fcr_lag).x0.length = (if fcr_lag then 2 else 1) ∧
    (sim_ivp_call fcr_lag).x0.getD 0 0 = 50 ∧
    (sim_ivp_call fcr_lag).method = "BDF" ∧
    (sim_ivp_call fcr_lag).max_step
      = ((sim_ivp_call fcr_lag).t1 - (sim_ivp_call fcr_lag).t0) / 100 ∧
    (sim_ivp_call fcr_lag).max_step = 11 / 100 ∧
    (sim_ivp_call fcr_lag).rtol = 1 / 10000 := by
  cases fcr_lag <;> norm_num [sim_ivp_call, sim_x_ini, t_ini, t_fin]

/-- Claim C10 (implicit): for every non-empty frequency sequence,
`find_nadir` returns either no nadir, or a pair `(i, v)` with
`0 < i < length - 1`, `v = f[i]` the global minimum value (`i` its first
index) and `v ≤ f[last] - 0.001`; in particular it always returns no
nadir on sequences of length 1 or 2. -/
theorem find_nadir_sound (f : List ℚ) (hne : f ≠ []) :
    (find_nadir f = none ∨
      ∃ i v, find_nadir f = some (i, v) ∧ 0 < i ∧ i < f.length - 1 ∧
        v = f.getD i 0 ∧ (∀ j, j < f.length → v ≤ f.getD j 0) ∧
        (∀ j, j < i → v < f.getD j 0) ∧
        v ≤ f.getD (f.length - 1) 0 - 1 / 1000) ∧
    (f.length ≤ 2 → find_nadir f = none) := by
  constructor
  · cases h : find_nadir f with
    | none => exact Or.inl rfl
    | some p =>
      obtain ⟨i, v⟩ := p
      have hp := (find_nadir_some_iff f i v).mp h
      exact Or.inr ⟨i, v, rfl, hp.2.2.2.2.1, hp.2.2.2.2.2.1, hp.2.1, hp.2.2.1,
        hp.2.2.2.1, hp.2.2.2.2.2.2⟩
  · intro hlen
    cases h : find_nadir f with
    | none => rfl
    | some p =>
      obtain ⟨i, v⟩ := p
      have hp := (find_nadir_some_iff f i v).mp h
      have h1 := hp.2.2.2.2.1
      have h2 := hp.2.2.2.2.2.1
      exfalso
      omega

/-- Witness for C10 at the length-2 sequence `[1, 2]`. -/
theorem find_nadir_sound_witness :
    find_nadir [(1 : ℚ), 2] = none :=
  (find_nadir_sound [(1 : ℚ), 2] (by simp)).2 (by simp)

end FreqReg
